import Mathlib

/-!
Verification of the natural-language specification of SkyScan's
`ml-model/scripts/detection.py` against a shallow embedding of that file.

The embedding translates the Python source into Lean definitions:

* samples, detections and datasets of the fiftyone ("voxel51") library are
  plain records and lists;
* fiftyone's `match_tags` / `shuffle(seed=...)` / `take` / `skip` view
  operations become list operations; the shuffle itself is external library
  code, so it is kept as a parameter `rng : ℕ → List Sample → List Sample`
  (a permutation for every seed) and the embedding only fixes how the
  source calls it (with the literal seeds 51 and 2021);
* Python binary64 floating point arithmetic is modelled exactly over ℚ by
  `roundB64`, round-to-nearest with ties to even for values in the normal
  range (the only values the source's arithmetic produces for realistic
  dataset sizes; overflow and subnormals do not occur there);
* the protobuf text serialization (`text_format.MessageToBytes` with
  `as_utf8=True`) and the label-map reader of
  `object_detection.utils.label_map_util` are external libraries; they are
  modelled from their documented text format and their library source,
  for label names that need no text-format escaping;
* fallible Python code (`KeyError`, `sys.exit`) returns `Except` / an
  explicit outcome value.
-/

namespace SkyScan

/-- A detection annotation; the source only reads `detection["label"]`. -/
structure Detection where
  label : String
deriving DecidableEq, Repr

/-- A fiftyone sample: its tags and the configured label field, which holds
`None` or a list of detections (`sample[label_field].detections`). -/
structure Sample where
  sid : ℕ
  tags : List String
  labelField : Option (List Detection)
deriving DecidableEq, Repr

/-- A fiftyone dataset, as the list of its samples. -/
def Dataset := List Sample

/-- `dataset.match_tags(t)`: the view of the samples carrying tag `t`. -/
def matchTags (t : String) (ds : List Sample) : List Sample :=
  ds.filter (fun s => t ∈ s.tags)

/-- Modelled from the external fiftyone library: `view.shuffle(seed=...)`
permutes the view with the given seed, or with ambient randomness `amb`
when no seed is passed.  The permutation itself (`rng`) is the library's
PRNG shuffle, kept abstract as a parameter. -/
def fiftyoneShuffle (rng : ℕ → List Sample → List Sample)
    (seed : Option ℕ) (amb : ℕ) (l : List Sample) : List Sample :=
  rng (seed.getD amb) l

/-- `base_models.json` metadata record for one pre-trained model. -/
structure BaseModelMetadata where
  base_pipeline_file : String
  model_name : String
  pretrained_checkpoint : String
deriving DecidableEq, Repr

/-- Python exception classes raised by the embedded code. -/
inductive PyError where
  | keyError
deriving DecidableEq, Repr

/-- The dict returned by `set_filenames`, as a record with one field per
key the source assigns. -/
structure Filepaths where
  train_record_file : String
  val_record_file : String
  val_export_dir : String
  train_export_dir : String
  model_export_dir : String
  label_map_file : String
  model_dir : String
  pretrained_checkpoint : String
  pipeline_file : String
  fine_tune_checkpoint : String
  base_pipeline_file : String
deriving DecidableEq, Repr

/-- All values of the filepath dict, in assignment order. -/
def Filepaths.allPaths (f : Filepaths) : List String :=
  [f.train_record_file, f.val_record_file, f.val_export_dir,
   f.train_export_dir, f.model_export_dir, f.label_map_file, f.model_dir,
   f.pretrained_checkpoint, f.pipeline_file, f.fine_tune_checkpoint,
   f.base_pipeline_file]

/-- The seven values of the filepath dict that are built from
`training_name`, in assignment order. -/
def Filepaths.runScopedPaths (f : Filepaths) : List String :=
  [f.train_record_file, f.val_record_file, f.val_export_dir,
   f.train_export_dir, f.model_export_dir, f.label_map_file, f.model_dir]

/-- `set_filenames` (detection.py lines 56-99).  The Python dict
`base_models` is an association list; `base_models[chosen_model]` raises
`KeyError` when the key is absent, which the source does not catch. -/
def set_filenames (base_models : List (String × BaseModelMetadata))
    (training_name chosen_model : String) : Except PyError Filepaths :=
  match base_models.lookup chosen_model with
  | none => .error .keyError
  | some md =>
    .ok
      { train_record_file :=
          "/tf/dataset-export/" ++ training_name ++ "/train/tf.records"
        val_record_file :=
          "/tf/dataset-export/" ++ training_name ++ "/val/tf.records"
        val_export_dir := "/tf/dataset-export/" ++ training_name ++ "/val/"
        train_export_dir := "/tf/dataset-export/" ++ training_name ++ "/train/"
        model_export_dir := "/tf/model-export/" ++ training_name ++ "/"
        label_map_file :=
          "/tf/dataset-export/" ++ training_name ++ "/label_map.pbtxt"
        model_dir := "/tf/training/" ++ training_name ++ "/"
        pretrained_checkpoint := md.pretrained_checkpoint
        pipeline_file := "/tf/models/research/deploy/" ++ md.base_pipeline_file
        fine_tune_checkpoint :=
          "/tf/models/research/deploy/" ++ md.model_name ++ "/checkpoint/ckpt-0"
        base_pipeline_file := md.base_pipeline_file }

/-- `needle` occurs contiguously inside `hay`. -/
def strContains (hay needle : String) : Prop :=
  ∃ pre suf : List Char, hay.data = pre ++ needle.data ++ suf

/-- One step of the class-name accumulation of
`_create_list_of_class_names`: append the label unless already present. -/
def addClassName (acc : List String) (label : String) : List String :=
  if label ∈ acc then acc else acc ++ [label]

/-- `_create_list_of_class_names` (detection.py lines 181-200): scan the
view; for samples whose label field is not `None`, walk its detections and
collect each new label. -/
def _create_list_of_class_names (view : List Sample) : List String :=
  view.foldl
    (fun acc s =>
      match s.labelField with
      | none => acc
      | some dets => dets.foldl (fun a d => addClassName a d.label) acc)
    []

/-- The labels the scan of `_create_list_of_class_names` encounters, in
scan order: detections of the non-null samples, flattened. -/
def scanLabels (view : List Sample) : List String :=
  (view.filterMap Sample.labelField).foldl
    (fun acc dets => acc ++ dets.map Detection.label) []

/-- First-occurrence dedup of a list of labels, the list analogue of the
inner loop of `_create_list_of_class_names`. -/
def dedupFirst (l : List String) : List String :=
  l.foldl addClassName []

/-- Index of the first occurrence of `x` in `l` (length of `l` when
absent). -/
def firstIdx (l : List String) (x : String) : ℕ :=
  match l with
  | [] => 0
  | a :: l' => if a = x then 0 else 1 + firstIdx l' x

/-- Round a rational to the nearest integer, ties to even (IEEE 754
default rounding of the fractional significand). -/
def rhe (r : ℚ) : ℤ :=
  if r - ⌊r⌋ < 1 / 2 then ⌊r⌋
  else if 1 / 2 < r - ⌊r⌋ then ⌊r⌋ + 1
  else if Even ⌊r⌋ then ⌊r⌋ else ⌊r⌋ + 1

/-- Exact model of IEEE 754 binary64 rounding (round to nearest, ties to
even) for nonnegative values in the normal range: the exact value of the
double nearest to `q`.  Every float the source's arithmetic produces is of
this kind, so this is the meaning of a Python float operation: the
operation computed exactly in ℚ, then rounded by `roundB64`. -/
def roundB64 (q : ℚ) : ℚ :=
  if q ≤ 0 then 0
  else
    let e : ℤ := Int.log 2 q
    (rhe (q * 2 ^ (52 - e)) : ℚ) * 2 ^ (e - 52)

/-- The binary64 value of the Python literal `0.8`, the default
`training_percentage`. -/
def defaultTrainingPercentage : ℚ := roundB64 (4 / 5)

/-- `train_len` of `export_voxel51_dataset_to_tfrecords` (line 122):
`math.floor(sample_len * training_percentage)` under binary64
arithmetic. -/
def train_len (sampleLen : ℕ) (trainingPercentage : ℚ) : ℤ :=
  ⌊roundB64 ((sampleLen : ℚ) * trainingPercentage)⌋

/-- `val_len` of `export_voxel51_dataset_to_tfrecords` (line 123):
`math.floor(sample_len * (1 - training_percentage))` under binary64
arithmetic (`1 - training_percentage` is itself a float subtraction). -/
def val_len (sampleLen : ℕ) (trainingPercentage : ℚ) : ℤ :=
  ⌊roundB64 ((sampleLen : ℚ) * roundB64 (1 - trainingPercentage))⌋

/-- `export_voxel51_dataset_to_tfrecords` (detection.py lines 102-139),
reduced to its data flow: filter the dataset to the `"training"` tag,
shuffle with the fixed seed 51, and cut the validation view
(`view.take(val_len)`) and the training view
(`view.skip(val_len).take(train_len)`).  The function returns the pair
(validation view, training view) that the source hands to the external
TFRecord exporter.  `rng` is the external shuffle, `amb` the ambient
randomness fiftyone would draw on were no seed passed. -/
def export_voxel51_dataset_to_tfrecords
    (rng : ℕ → List Sample → List Sample) (amb : ℕ)
    (ds : List Sample) (trainingPercentage : ℚ) :
    List Sample × List Sample :=
  let view := fiftyoneShuffle rng (some 51) amb (matchTags "training" ds)
  let sampleLen := view.length
  let t := train_len sampleLen trainingPercentage
  let v := val_len sampleLen trainingPercentage
  (view.take v.toNat, (view.drop v.toNat).take t.toNat)

/-- The `view` of line 118: the `"training"`-tagged samples, shuffled with
the fixed seed 51. -/
def shuffledTrainingView (rng : ℕ → List Sample → List Sample) (amb : ℕ)
    (ds : List Sample) : List Sample :=
  fiftyoneShuffle rng (some 51) amb (matchTags "training" ds)

/-- The validation-partition size the export computes, as a list index. -/
def valLenOf (rng : ℕ → List Sample → List Sample) (amb : ℕ)
    (ds : List Sample) (f : ℚ) : ℕ :=
  (val_len (shuffledTrainingView rng amb ds).length f).toNat

/-- The training-partition size the export computes, as a list index. -/
def trainLenOf (rng : ℕ → List Sample → List Sample) (amb : ℕ)
    (ds : List Sample) (f : ℚ) : ℕ :=
  (train_len (shuffledTrainingView rng amb ds).length f).toNat

/-- One `StringIntLabelMapItem` of the label-map protobuf message: the
source sets exactly the `id` and `name` fields. -/
structure LabelMapItem where
  id : ℕ
  name : String
deriving DecidableEq, Repr

/-- The items of the `StringIntLabelMap` message built by
`create_detection_mapping` (lines 172-174): ids 1, 2, ... assigned to the
class names in list order. -/
def labelMapItems (classNames : List String) : List LabelMapItem :=
  (classNames.enumFrom 1).map (fun p => ⟨p.1, p.2⟩)

/-- Decimal digit characters. -/
def digitChar : ℕ → Char
  | 0 => '0' | 1 => '1' | 2 => '2' | 3 => '3' | 4 => '4'
  | 5 => '5' | 6 => '6' | 7 => '7' | 8 => '8' | _ => '9'

/-- Fuel-driven decimal printer for ℕ (most significant digit first). -/
def natDigitsAux : ℕ → ℕ → List Char → List Char
  | 0, _, acc => acc
  | fuel + 1, n, acc =>
    if n < 10 then digitChar n :: acc
    else natDigitsAux fuel (n / 10) (digitChar (n % 10) :: acc)

/-- The decimal digits of `n`, most significant first. -/
def natDigits (n : ℕ) : List Char := natDigitsAux (n + 1) n []

/-- The characters of one serialized label-map item, exactly as
`text_format.MessageToBytes(msg, as_utf8=True)` prints a repeated
`item` message whose fields `name` (field 1) and `id` (field 2) are set:
modelled from the external protobuf text format, for names that need no
escaping. -/
def itemChars (it : LabelMapItem) : List Char :=
  "item \x7b\n  name: \"".data ++ it.name.data ++ "\"\n  id: ".data ++
    natDigits it.id ++ "\n\x7d\n".data

/-- The serialized label-map text, as a character list. -/
def labelMapChars (items : List LabelMapItem) : List Char :=
  items.foldr (fun it acc => itemChars it ++ acc) []

/-- `create_detection_mapping` (detection.py lines 142-178): filter to the
`"training"` tag, shuffle with the fixed seed 2021, build the class-name
list, number it from 1 and serialize it in the protobuf text format. -/
def create_detection_mapping
    (rng : ℕ → List Sample → List Sample) (amb : ℕ) (ds : List Sample) :
    String :=
  let view := fiftyoneShuffle rng (some 2021) amb (matchTags "training" ds)
  let classNames := _create_list_of_class_names view
  String.mk (labelMapChars (labelMapItems classNames))

/-- A label name the serializer model covers: no character of the name
forces text-format escaping. -/
def plainName (s : String) : Prop :=
  ∀ c ∈ s.data, c ≠ '"' ∧ c ≠ '\\' ∧ c ≠ '\n'

/-- Strip an expected literal from the front of the input; `none` on
mismatch. -/
def stripLit : List Char → List Char → Option (List Char)
  | [], cs => some cs
  | _ :: _, [] => none
  | p :: ps, c :: cs => if c = p then stripLit ps cs else none

/-- Consume input up to and including the next `'"'`; return the consumed
name and the rest. -/
def takeName : List Char → Option (List Char × List Char)
  | [] => none
  | c :: cs =>
    if c = '"' then some ([], cs)
    else (takeName cs).map (fun p => (c :: p.1, p.2))

/-- Split the longest leading run of decimal digits off the input. -/
def spanDigits : List Char → List Char × List Char
  | [] => ([], [])
  | c :: cs =>
    if c.isDigit then
      let p := spanDigits cs
      (c :: p.1, p.2)
    else ([], c :: cs)

/-- Numeric value of a list of decimal digit characters. -/
def digitsVal (l : List Char) : ℕ :=
  l.foldl (fun a c => 10 * a + (c.toNat - 48)) 0

/-- Parse one serialized label-map item; return it and the remaining
input. -/
def parseItem (cs : List Char) : Option (LabelMapItem × List Char) :=
  (stripLit "item \x7b\n  name: \"".data cs).bind fun cs1 =>
    (takeName cs1).bind fun p =>
      (stripLit "\n  id: ".data p.2).bind fun cs3 =>
        if (spanDigits cs3).1 = [] then none
        else
          (stripLit "\n\x7d\n".data (spanDigits cs3).2).bind fun cs5 =>
            some (⟨digitsVal (spanDigits cs3).1, String.mk p.1⟩, cs5)

/-- Fuel-driven parser of a serialized label map: the sequence of `item`
blocks, modelling the external protobuf text-format parser that
`label_map_util.load_labelmap` delegates to, on the grammar the
serializer emits. -/
def parseItems : ℕ → List Char → Option (List LabelMapItem)
  | _, [] => some []
  | 0, _ :: _ => none
  | fuel + 1, c :: cs =>
    (parseItem (c :: cs)).bind fun pr =>
      (parseItems fuel pr.2).bind fun items => some (pr.1 :: items)

/-- `label_map_util.load_labelmap` applied to the written file: parse the
label-map text back into its items.  Modelled from the external library
(a thin wrapper around the protobuf text-format parser). -/
def load_labelmap (s : String) : Option (List LabelMapItem) :=
  parseItems s.data.length s.data

/-- One category dict of `label_map_util.convert_label_map_to_categories`:
`{'id': ..., 'name': ...}`. -/
structure Category where
  id : ℕ
  name : String
deriving DecidableEq, Repr

/-- One step of `convert_label_map_to_categories`: the accumulator pair is
(`list_of_ids_already_added`, `categories`). -/
def convertStep (maxNumClasses : ℕ) (acc : List ℕ × List Category)
    (it : LabelMapItem) : List ℕ × List Category :=
  if 0 < it.id ∧ it.id ≤ maxNumClasses then
    if it.id ∈ acc.1 then acc
    else (acc.1 ++ [it.id], acc.2 ++ [⟨it.id, it.name⟩])
  else acc

/-- `label_map_util.convert_label_map_to_categories(label_map,
max_num_classes, use_display_name=True)`, modelled from the external
library source: walk the items, skip an item whose id lies outside
`(0, max_num_classes]`, skip an id already added, otherwise append a
category (our items never set `display_name`, so the name field is
used). -/
def convert_label_map_to_categories (maxNumClasses : ℕ)
    (items : List LabelMapItem) : List Category :=
  (items.foldl (convertStep maxNumClasses) ([], [])).2

/-- The distinct keys of the Python dict `{cat['id']: cat}` built by
`label_map_util.create_category_index`, in first-insertion order. -/
def categoryIndexKeys (cats : List Category) : List ℕ :=
  (cats.map Category.id).foldl
    (fun acc i => if i ∈ acc then acc else acc ++ [i]) []

/-- `get_num_classes_from_label_map` (detection.py lines 217-234) applied
to a label-map text (the file contents that `save_mapping_to_file` wrote
verbatim): load the map, convert with `max_num_classes=90`, index the
categories, count the keys.  `none` models the load step raising on
unparsable text. -/
def get_num_classes_from_label_map (s : String) : Option ℕ :=
  (load_labelmap s).map
    (fun items =>
      (categoryIndexKeys (convert_label_map_to_categories 90 items)).length)

/-- `save_mapping_to_file` (detection.py lines 203-214) writes the mapping
text verbatim (full overwrite) to the label-map file; reading that file
back yields the same text, so write-then-read is the identity on the
mapping string. -/
def save_mapping_to_file (mapping : String) : String := mapping

/-- A dataset whose single `"training"`-tagged sample carries 91
detections with 91 distinct labels (the decimal numerals 0..90). -/
def cex91Dataset : List Sample :=
  [⟨0, ["training"],
    some ((List.range 91).map (fun i => ⟨String.mk (natDigits i)⟩))⟩]

/-- Observable effects of the training driver, in program order. -/
inductive Effect where
  | logError (msg : String)
  | loadConfig (file : String)
  | writeFile (path : String)
  | download (url : String)
deriving DecidableEq, Repr

/-- How an invocation of the driver ends. -/
inductive Outcome where
  | exited (code : ℕ)
  | raised (e : PyError)
  | returned
deriving DecidableEq, Repr

/-- The directory `train_detection_model` probes before doing anything
else (detection.py line 32). -/
def uniqueNameGuardDir (training_name : String) : String :=
  "/tf/ml-model/dataset-export/" ++ training_name

/-- `train_detection_model` (detection.py lines 19-38) over a filesystem
abstraction `isdir` and the parsed contents of `base_models.json`:
if the guard directory exists, log an error and `sys.exit(1)`; otherwise
load the configuration file and call `set_filenames`.  Returns the
emitted effect trace and the outcome. -/
def train_detection_model (isdir : String → Bool)
    (base_models : List (String × BaseModelMetadata))
    (training_name chosen_model : String) : List Effect × Outcome :=
  if isdir (uniqueNameGuardDir training_name) then
    ([.logError "Must use unique model name."], .exited 1)
  else
    ([.loadConfig "base_models.json"],
      match set_filenames base_models training_name chosen_model with
      | .error e => .raised e
      | .ok _ => .returned)

/-- The spec's concrete mapping scenario: three `"training"`-tagged
samples whose detections carry, in scan order, the labels
`"cat"`, `"dog"`, `"cat"`. -/
def exampleDataset : List Sample :=
  [⟨1, ["training"], some [⟨"cat"⟩]⟩,
   ⟨2, ["training"], some [⟨"dog"⟩]⟩,
   ⟨3, ["training"], some [⟨"cat"⟩]⟩]

/-- A one-entry `base_models` whose metadata strings do not mention the
training name, and whose `pretrained_checkpoint` collides with the built
`pipeline_file` path. -/
def cexBaseModels : List (String × BaseModelMetadata) :=
  [("m", ⟨"bp", "mn", "/tf/models/research/deploy/bp"⟩)]

/-! ## Lemmas about the class-name scan -/

theorem mem_addClassName {acc : List String} {a x : String} :
    x ∈ addClassName acc a ↔ x ∈ acc ∨ x = a := by
  by_cases h : a ∈ acc
  · simp only [addClassName, if_pos h]
    exact ⟨Or.inl, fun hx => hx.elim id (fun e => e ▸ h)⟩
  · simp [addClassName, if_neg h]

theorem nodup_addClassName {acc : List String} {a : String}
    (h : acc.Nodup) : (addClassName acc a).Nodup := by
  by_cases hm : a ∈ acc
  · simpa [addClassName, if_pos hm] using h
  · simp only [addClassName, if_neg hm]
    simpa [List.nodup_append] using ⟨h, hm⟩

theorem mem_foldl_addClassName (l : List String) :
    ∀ (acc : List String) (x : String),
      x ∈ l.foldl addClassName acc ↔ x ∈ acc ∨ x ∈ l := by
  induction l with
  | nil => simp
  | cons a l ih =>
    intro acc x
    rw [List.foldl_cons, ih, mem_addClassName]
    simp [List.mem_cons, or_assoc]

theorem nodup_foldl_addClassName (l : List String) :
    ∀ acc : List String, acc.Nodup → (l.foldl addClassName acc).Nodup := by
  induction l with
  | nil => simp
  | cons a l ih => exact fun acc h => ih _ (nodup_addClassName h)

theorem firstIdx_cons_self (x : String) (l : List String) :
    firstIdx (x :: l) x = 0 := by
  simp [firstIdx]

theorem firstIdx_lt_length {l : List String} {x : String} (h : x ∈ l) :
    firstIdx l x < l.length := by
  induction l with
  | nil => cases h
  | cons a l ih =>
    by_cases hax : a = x
    · simp [firstIdx, hax]
    · rcases List.mem_cons.mp h with hx | h'
      · exact absurd hx.symm hax
      · simpa [firstIdx, hax, Nat.add_comm] using
          Nat.add_lt_add_right (ih h') 1

theorem firstIdx_append_of_mem {pre : List String} {x : String}
    (h : x ∈ pre) (rest : List String) :
    firstIdx (pre ++ rest) x = firstIdx pre x := by
  induction pre with
  | nil => cases h
  | cons a pre ih =>
    by_cases hax : a = x
    · simp [firstIdx, hax]
    · rcases List.mem_cons.mp h with hx | h'
      · exact absurd hx.symm hax
      · simp [firstIdx, hax, ih h']

theorem firstIdx_append_of_notMem {pre : List String} {x : String}
    (h : x ∉ pre) (rest : List String) :
    firstIdx (pre ++ rest) x = pre.length + firstIdx rest x := by
  induction pre with
  | nil => simp
  | cons a pre ih =>
    have hax : a ≠ x := fun e => h (e ▸ List.mem_cons_self a pre)
    have h' : x ∉ pre := fun hx => h (List.mem_cons_of_mem a hx)
    simp [firstIdx, hax, ih h']
    omega

theorem pairwise_foldl_addClassName (l : List String) :
    ∀ (pre acc : List String),
      (∀ x, x ∈ acc ↔ x ∈ pre) →
      List.Pairwise
        (fun a b => firstIdx (pre ++ l) a < firstIdx (pre ++ l) b) acc →
      List.Pairwise
        (fun a b => firstIdx (pre ++ l) a < firstIdx (pre ++ l) b)
        (l.foldl addClassName acc) := by
  induction l with
  | nil => intro pre acc _ hp; simpa using hp
  | cons c l ih =>
    intro pre acc hmem hp
    rw [List.foldl_cons]
    have hassoc : pre ++ c :: l = (pre ++ [c]) ++ l := by simp
    rw [hassoc] at hp ⊢
    by_cases hc : c ∈ acc
    · have hacc : addClassName acc c = acc := by simp [addClassName, hc]
      rw [hacc]
      refine ih (pre ++ [c]) acc (fun x => ?_) hp
      rw [hmem]
      simp only [List.mem_append, List.mem_singleton]
      exact ⟨Or.inl, fun h => h.elim id (fun e => e ▸ ((hmem c).mp hc))⟩
    · have hacc : addClassName acc c = acc ++ [c] := by
        simp [addClassName, hc]
      rw [hacc]
      have hcpre : c ∉ pre := fun h => hc ((hmem c).mpr h)
      refine ih (pre ++ [c]) (acc ++ [c]) (fun x => by simp [hmem]) ?_
      rw [List.pairwise_append]
      refine ⟨hp, List.pairwise_singleton _ _, ?_⟩
      intro a ha b hb
      have hb' : b = c := List.mem_singleton.mp hb
      rw [hb']
      have hapre : a ∈ pre := (hmem a).mp ha
      have h1 : firstIdx (pre ++ [c] ++ l) a = firstIdx pre a := by
        rw [List.append_assoc, firstIdx_append_of_mem hapre]
      have h2 : firstIdx (pre ++ [c] ++ l) c = pre.length := by
        rw [List.append_assoc, firstIdx_append_of_notMem hcpre]
        simp [firstIdx_cons_self]
      rw [h1, h2]
      exact firstIdx_lt_length hapre

theorem scanLabels_nil : scanLabels [] = [] := rfl

theorem foldl_appendLabels (l : List (List Detection)) :
    ∀ acc : List String,
      l.foldl (fun a dets => a ++ dets.map Detection.label) acc =
        acc ++ l.foldl (fun a dets => a ++ dets.map Detection.label) [] := by
  induction l with
  | nil => simp
  | cons d l ih =>
    intro acc
    rw [List.foldl_cons, List.foldl_cons, ih, ih (List.nil ++ _)]
    simp

theorem scanLabels_cons_none {s : Sample} (view : List Sample)
    (h : s.labelField = none) :
    scanLabels (s :: view) = scanLabels view := by
  simp [scanLabels, List.filterMap_cons, h]

theorem scanLabels_cons_some {s : Sample} {dets : List Detection}
    (view : List Sample) (h : s.labelField = some dets) :
    scanLabels (s :: view) = dets.map Detection.label ++ scanLabels view := by
  simp only [scanLabels, List.filterMap_cons, h, List.foldl_cons]
  rw [foldl_appendLabels]
  simp

theorem clc_eq_dedupFirst (view : List Sample) :
    _create_list_of_class_names view = dedupFirst (scanLabels view) := by
  suffices h : ∀ (v : List Sample) (acc : List String),
      v.foldl
        (fun acc s =>
          match s.labelField with
          | none => acc
          | some dets => dets.foldl (fun a d => addClassName a d.label) acc)
        acc = (scanLabels v).foldl addClassName acc by
    exact h view []
  intro v
  induction v with
  | nil => intro acc; rfl
  | cons s v ih =>
    intro acc
    rw [List.foldl_cons]
    cases hs : s.labelField with
    | none => rw [scanLabels_cons_none v hs, ih]
    | some dets =>
      rw [scanLabels_cons_some v hs, List.foldl_append, ← ih]
      have h : dets.foldl (fun a d => addClassName a d.label) acc =
          (dets.map Detection.label).foldl addClassName acc := by
        rw [List.foldl_map]
      dsimp only
      rw [h]

/-! ## String helper lemmas -/

theorem strNe_of_parts {a b c d tn : String}
    (h : a.data.length + b.data.length ≠ c.data.length + d.data.length) :
    (a ++ tn) ++ b ≠ (c ++ tn) ++ d := by
  intro he
  have hl := congrArg (fun s : String => s.data.length) he
  simp only [String.data_append, List.length_append] at hl
  omega

theorem strContains_mid (a tn b : String) : strContains ((a ++ tn) ++ b) tn :=
  ⟨a.data, b.data, by simp [String.data_append]⟩

theorem not_strContains_of_short {hay needle : String}
    (h : hay.data.length < needle.data.length) : ¬ strContains hay needle := by
  rintro ⟨pre, suf, he⟩
  have hl := congrArg List.length he
  simp only [List.length_append] at hl
  omega

/-! ## Lemmas about the label-map serializer and parser -/

theorem stripLit_append (p : List Char) :
    ∀ rest : List Char, stripLit p (p ++ rest) = some rest := by
  induction p with
  | nil => intro rest; rfl
  | cons c p ih => intro rest; simp [stripLit, ih]

theorem takeName_append {nm : List Char} (hv : ∀ c ∈ nm, c ≠ '"') :
    ∀ rest : List Char, takeName (nm ++ '"' :: rest) = some (nm, rest) := by
  induction nm with
  | nil => intro rest; simp [takeName]
  | cons c nm ih =>
    intro rest
    have hc : c ≠ '"' := hv c (List.mem_cons_self c nm)
    have ih' := ih (fun c hm => hv c (List.mem_cons_of_mem _ hm)) rest
    simp [takeName, hc, ih']

theorem digitChar_isDigit (d : ℕ) : (digitChar d).isDigit = true := by
  rcases d with _|_|_|_|_|_|_|_|_|_|d <;> rfl

theorem digitChar_val {d : ℕ} (h : d < 10) :
    (digitChar d).toNat - 48 = d := by
  rcases d with _|_|_|_|_|_|_|_|_|_|d
  · decide
  · decide
  · decide
  · decide
  · decide
  · decide
  · decide
  · decide
  · decide
  · decide
  · omega

theorem natDigitsAux_acc :
    ∀ (fuel n : ℕ) (acc : List Char),
      natDigitsAux fuel n acc = natDigitsAux fuel n [] ++ acc := by
  intro fuel
  induction fuel with
  | zero => intro n acc; rfl
  | succ fuel ih =>
    intro n acc
    by_cases h : n < 10
    · simp [natDigitsAux, h]
    · rw [natDigitsAux, if_neg h, natDigitsAux, if_neg h,
        ih (n / 10) (digitChar (n % 10) :: acc),
        ih (n / 10) [digitChar (n % 10)]]
      simp

theorem natDigitsAux_fuel :
    ∀ (f1 f2 n : ℕ) (acc : List Char), n < f1 → n < f2 →
      natDigitsAux f1 n acc = natDigitsAux f2 n acc := by
  intro f1
  induction f1 with
  | zero => intro f2 n acc h1; omega
  | succ f1 ih =>
    intro f2 n acc h1 h2
    cases f2 with
    | zero => omega
    | succ f2 =>
      by_cases h : n < 10
      · simp [natDigitsAux, h]
      · rw [natDigitsAux, if_neg h, natDigitsAux, if_neg h]
        have hlt : n / 10 < n := Nat.div_lt_self (by omega) (by omega)
        exact ih f2 (n / 10) _ (by omega) (by omega)

theorem natDigits_small {n : ℕ} (h : n < 10) :
    natDigits n = [digitChar n] := by
  simp [natDigits, natDigitsAux, h]

theorem natDigits_step {n : ℕ} (h : 10 ≤ n) :
    natDigits n = natDigits (n / 10) ++ [digitChar (n % 10)] := by
  have hlt : n / 10 < n := Nat.div_lt_self (by omega) (by omega)
  rw [natDigits, natDigitsAux, if_neg (by omega),
    natDigitsAux_acc n (n / 10) [digitChar (n % 10)], natDigits,
    natDigitsAux_fuel n (n / 10 + 1) (n / 10) [] (by omega) (by omega)]

theorem natDigits_ne_nil (n : ℕ) : natDigits n ≠ [] := by
  by_cases h : n < 10
  · rw [natDigits_small h]
    simp
  · rw [natDigits_step (by omega)]
    simp

theorem natDigits_digits (n : ℕ) : ∀ c ∈ natDigits n, c.isDigit = true := by
  induction n using Nat.strong_induction_on with
  | _ n ih =>
    by_cases h : n < 10
    · rw [natDigits_small h]
      intro c hc
      rw [List.mem_singleton.mp hc]
      exact digitChar_isDigit n
    · rw [natDigits_step (by omega)]
      intro c hc
      rcases List.mem_append.mp hc with hc | hc
      · exact ih (n / 10) (Nat.div_lt_self (by omega) (by omega)) c hc
      · rw [List.mem_singleton.mp hc]
        exact digitChar_isDigit _

theorem digitsVal_append_singleton (l : List Char) (c : Char) :
    digitsVal (l ++ [c]) = 10 * digitsVal l + (c.toNat - 48) := by
  simp [digitsVal, List.foldl_append]

theorem digitsVal_natDigits (n : ℕ) : digitsVal (natDigits n) = n := by
  induction n using Nat.strong_induction_on with
  | _ n ih =>
    by_cases h : n < 10
    · rw [natDigits_small h]
      show 10 * 0 + ((digitChar n).toNat - 48) = n
      rw [digitChar_val h]
      omega
    · rw [natDigits_step (by omega), digitsVal_append_singleton,
        ih (n / 10) (Nat.div_lt_self (by omega) (by omega)),
        digitChar_val (Nat.mod_lt n (by omega))]
      omega

theorem spanDigits_append {ds : List Char}
    (h : ∀ c ∈ ds, c.isDigit = true) (tl : List Char) :
    spanDigits (ds ++ '\n' :: tl) = (ds, '\n' :: tl) := by
  induction ds with
  | nil => simp [spanDigits]
  | cons c ds ih =>
    have hc : c.isDigit = true := h c (List.mem_cons_self c ds)
    have ih' := ih (fun c hm => h c (List.mem_cons_of_mem _ hm))
    simp [spanDigits, hc, ih']

theorem string_mk_data (s : String) : String.mk s.data = s := rfl

theorem parseItem_round (it : LabelMapItem) (rest : List Char)
    (hv : ∀ c ∈ it.name.data, c ≠ '"') :
    parseItem (itemChars it ++ rest) = some (it, rest) := by
  have h2 : ("\"\n  id: ").data = '"' :: ("\n  id: ").data := rfl
  have h3 : ("\n\x7d\n").data = '\n' :: ("\x7d\n").data := rfl
  have hfl : itemChars it ++ rest =
      "item \x7b\n  name: \"".data ++ (it.name.data ++ ('"' ::
        ("\n  id: ".data ++ (natDigits it.id ++ ('\n' ::
          ("\x7d\n".data ++ rest)))))) := by
    simp only [itemChars, h2, h3, List.cons_append, List.append_assoc]
  rw [parseItem, hfl, h3, stripLit_append, Option.some_bind',
    takeName_append hv, Option.some_bind', stripLit_append,
    Option.some_bind', spanDigits_append (natDigits_digits it.id),
    if_neg (natDigits_ne_nil it.id)]
  show (stripLit ('\n' :: "\x7d\n".data) ('\n' :: ("\x7d\n".data ++ rest))).bind _ =
    _
  rw [show stripLit ('\n' :: "\x7d\n".data) ('\n' :: ("\x7d\n".data ++ rest)) =
      stripLit ("\x7d\n".data) ("\x7d\n".data ++ rest) by simp [stripLit],
    stripLit_append, Option.some_bind', digitsVal_natDigits,
    string_mk_data]

theorem itemChars_ne_nil (it : LabelMapItem) : itemChars it ≠ [] := by
  unfold itemChars
  rw [show ("item \x7b\n  name: \"").data = 'i' :: ("tem \x7b\n  name: \"").data
    from rfl]
  simp

theorem labelMapChars_cons (it : LabelMapItem) (items : List LabelMapItem) :
    labelMapChars (it :: items) = itemChars it ++ labelMapChars items := rfl

theorem length_le_labelMapChars (items : List LabelMapItem) :
    items.length ≤ (labelMapChars items).length := by
  induction items with
  | nil => simp [labelMapChars]
  | cons it items ih =>
    rw [labelMapChars_cons, List.length_append, List.length_cons]
    have h1 : 1 ≤ (itemChars it).length :=
      List.length_pos.mpr (itemChars_ne_nil it)
    omega

theorem parseItems_cons_of_ne_nil {cs : List Char} (fuel : ℕ)
    (h : cs ≠ []) :
    parseItems (fuel + 1) cs =
      (parseItem cs).bind fun pr =>
        (parseItems fuel pr.2).bind fun items => some (pr.1 :: items) := by
  cases cs with
  | nil => exact absurd rfl h
  | cons c cs => rfl

theorem parseItems_round :
    ∀ (items : List LabelMapItem),
      (∀ it ∈ items, ∀ c ∈ it.name.data, c ≠ '"') →
      ∀ fuel, items.length ≤ fuel →
        parseItems fuel (labelMapChars items) = some items := by
  intro items
  induction items with
  | nil =>
    intro _ fuel _
    cases fuel <;> rfl
  | cons it items ih =>
    intro hv fuel hlen
    cases fuel with
    | zero => simp at hlen
    | succ fuel =>
      rw [labelMapChars_cons,
        parseItems_cons_of_ne_nil fuel
          (fun h => itemChars_ne_nil it (List.append_eq_nil.mp h).1),
        parseItem_round it _ (hv it (List.mem_cons_self it items)),
        Option.some_bind',
        ih (fun it' hm => hv it' (List.mem_cons_of_mem _ hm)) fuel
          (by simp only [List.length_cons] at hlen; omega),
        Option.some_bind']

theorem load_labelmap_round (items : List LabelMapItem)
    (hv : ∀ it ∈ items, ∀ c ∈ it.name.data, c ≠ '"') :
    load_labelmap (String.mk (labelMapChars items)) = some items := by
  unfold load_labelmap
  exact parseItems_round items hv _ (length_le_labelMapChars items)

theorem labelMapItems_ids (names : List String) :
    (labelMapItems names).map LabelMapItem.id =
      List.range' 1 names.length := by
  rw [labelMapItems, List.map_map]
  have h : (LabelMapItem.id ∘ fun p : ℕ × String => ⟨p.1, p.2⟩) =
      Prod.fst := rfl
  rw [h, List.enumFrom_map_fst]

theorem labelMapItems_names (names : List String) :
    (labelMapItems names).map LabelMapItem.name = names := by
  rw [labelMapItems, List.map_map]
  have h : (LabelMapItem.name ∘ fun p : ℕ × String => ⟨p.1, p.2⟩) =
      Prod.snd := rfl
  rw [h, List.enumFrom_map_snd]

theorem mem_labelMapItems_name {names : List String} {it : LabelMapItem}
    (h : it ∈ labelMapItems names) : it.name ∈ names := by
  rw [← labelMapItems_names names]
  exact List.mem_map_of_mem LabelMapItem.name h

theorem convert_foldl_eq (maxN : ℕ) :
    ∀ (items : List LabelMapItem) (acc : List ℕ × List Category),
      acc.1 = acc.2.map Category.id →
      (∀ it ∈ items, it.id ∉ acc.1) →
      (items.map LabelMapItem.id).Nodup →
      items.foldl (convertStep maxN) acc =
        (acc.1 ++ (items.filter
            (fun it => decide (0 < it.id ∧ it.id ≤ maxN))).map
              LabelMapItem.id,
         acc.2 ++ (items.filter
            (fun it => decide (0 < it.id ∧ it.id ≤ maxN))).map
              (fun it => ⟨it.id, it.name⟩)) := by
  intro items
  induction items with
  | nil => intro acc _ _ _; simp
  | cons it items ih =>
    intro acc hacc hnotin hnd
    rw [List.foldl_cons]
    by_cases hcond : 0 < it.id ∧ it.id ≤ maxN
    · have hmem : it.id ∉ acc.1 := hnotin it (List.mem_cons_self it items)
      have hstep : convertStep maxN acc it =
          (acc.1 ++ [it.id], acc.2 ++ [⟨it.id, it.name⟩]) := by
        rw [convertStep, if_pos hcond, if_neg hmem]
      rw [hstep]
      have hnd' : (items.map LabelMapItem.id).Nodup := by
        rw [List.map_cons] at hnd
        exact hnd.of_cons
      have hhead : it.id ∉ items.map LabelMapItem.id := by
        rw [List.map_cons] at hnd
        exact (List.nodup_cons.mp hnd).1
      have ih' := ih (acc.1 ++ [it.id], acc.2 ++ [⟨it.id, it.name⟩])
        (by simp [hacc])
        (by
          intro it' hm
          simp only [List.mem_append, List.mem_singleton]
          rintro (h | h)
          · exact hnotin it' (List.mem_cons_of_mem _ hm) h
          · exact hhead (h ▸ List.mem_map_of_mem LabelMapItem.id hm))
        hnd'
      rw [ih']
      have hfil : (it :: items).filter
          (fun it => decide (0 < it.id ∧ it.id ≤ maxN)) =
          it :: items.filter (fun it => decide (0 < it.id ∧ it.id ≤ maxN)) := by
        rw [List.filter_cons, if_pos (by simpa using hcond)]
      rw [hfil]
      simp
    · have hstep : convertStep maxN acc it = acc := by
        rw [convertStep, if_neg hcond]
      rw [hstep]
      have hnd' : (items.map LabelMapItem.id).Nodup := by
        rw [List.map_cons] at hnd
        exact hnd.of_cons
      have ih' := ih acc hacc
        (fun it' hm => hnotin it' (List.mem_cons_of_mem _ hm)) hnd'
      rw [ih']
      have hfil : (it :: items).filter
          (fun it => decide (0 < it.id ∧ it.id ≤ maxN)) =
          items.filter (fun it => decide (0 < it.id ∧ it.id ≤ maxN)) := by
        rw [List.filter_cons, if_neg (by simpa using hcond)]
      rw [hfil]

theorem convert_eq_of_nodup (maxN : ℕ) (items : List LabelMapItem)
    (h : (items.map LabelMapItem.id).Nodup) :
    convert_label_map_to_categories maxN items =
      (items.filter (fun it => decide (0 < it.id ∧ it.id ≤ maxN))).map
        (fun it => ⟨it.id, it.name⟩) := by
  rw [convert_label_map_to_categories,
    convert_foldl_eq maxN items ([], []) rfl (by simp) h]
  simp

theorem convert_invariant (maxN : ℕ) :
    ∀ (items : List LabelMapItem) (acc : List ℕ × List Category),
      acc.1 = acc.2.map Category.id → acc.1.Nodup →
      (∀ i ∈ acc.1, 0 < i ∧ i ≤ maxN) →
      (items.foldl (convertStep maxN) acc).1 =
          ((items.foldl (convertStep maxN) acc).2.map Category.id) ∧
        ((items.foldl (convertStep maxN) acc).1.Nodup) ∧
        ∀ i ∈ (items.foldl (convertStep maxN) acc).1, 0 < i ∧ i ≤ maxN := by
  intro items
  induction items with
  | nil => intro acc h1 h2 h3; exact ⟨h1, h2, h3⟩
  | cons it items ih =>
    intro acc h1 h2 h3
    rw [List.foldl_cons]
    by_cases hcond : 0 < it.id ∧ it.id ≤ maxN
    · by_cases hmem : it.id ∈ acc.1
      · rw [show convertStep maxN acc it = acc by
          rw [convertStep, if_pos hcond, if_pos hmem]]
        exact ih acc h1 h2 h3
      · rw [show convertStep maxN acc it =
            (acc.1 ++ [it.id], acc.2 ++ [⟨it.id, it.name⟩]) by
          rw [convertStep, if_pos hcond, if_neg hmem]]
        refine ih _ (by simp [h1]) ?_ ?_
        · simpa [List.nodup_append] using ⟨h2, hmem⟩
        · intro i hi
          rcases List.mem_append.mp hi with hi | hi
          · exact h3 i hi
          · rw [List.mem_singleton.mp hi]
            exact hcond
    · rw [show convertStep maxN acc it = acc by
        rw [convertStep, if_neg hcond]]
      exact ih acc h1 h2 h3

theorem foldl_insert_nodup :
    ∀ (l acc : List ℕ), (acc ++ l).Nodup →
      l.foldl (fun acc i => if i ∈ acc then acc else acc ++ [i]) acc =
        acc ++ l := by
  intro l
  induction l with
  | nil => intro acc _; simp
  | cons i l ih =>
    intro acc hnd
    rw [List.foldl_cons]
    have hmem : i ∉ acc := by
      have hdisj := (List.nodup_append.mp hnd).2.2
      intro hin
      exact hdisj hin (List.mem_cons_self i l)
    rw [if_neg hmem]
    have hnd' : ((acc ++ [i]) ++ l).Nodup := by
      rw [List.append_assoc]
      simpa using hnd
    rw [ih (acc ++ [i]) hnd']
    simp

theorem categoryIndexKeys_of_nodup (cats : List Category)
    (h : (cats.map Category.id).Nodup) :
    categoryIndexKeys cats = cats.map Category.id := by
  rw [categoryIndexKeys]
  exact foldl_insert_nodup (cats.map Category.id) [] (by simpa using h)

theorem countP_range' :
    ∀ (len k : ℕ), 1 ≤ k →
      List.countP (fun i => decide (0 < i ∧ i ≤ 90)) (List.range' k len) =
        min len (91 - k) := by
  intro len
  induction len with
  | zero => intro k _; simp
  | succ len ih =>
    intro k hk
    rw [List.range'_succ, List.countP_cons]
    by_cases hle : k ≤ 90
    · rw [ih (k + 1) (by omega)]
      have hp : (decide (0 < k ∧ k ≤ 90)) = true := by
        simp
        omega
      rw [hp]
      simp
      omega
    · rw [ih (k + 1) (by omega)]
      have hp : (decide (0 < k ∧ k ≤ 90)) = false := by
        simp
        omega
      rw [hp]
      simp
      omega

theorem length_filter_labelMapItems (names : List String) :
    ((labelMapItems names).filter
        (fun it => decide (0 < it.id ∧ it.id ≤ 90))).length =
      min names.length 90 := by
  rw [← List.countP_eq_length_filter]
  have h1 : List.countP (fun it => decide (0 < it.id ∧ it.id ≤ 90))
      (labelMapItems names) =
      List.countP (fun i => decide (0 < i ∧ i ≤ 90))
        ((labelMapItems names).map LabelMapItem.id) := by
    rw [List.countP_map]
    rfl
  rw [h1, labelMapItems_ids, countP_range' names.length 1 (by omega)]

theorem nodup_labelMapItems_ids (names : List String) :
    ((labelMapItems names).map LabelMapItem.id).Nodup := by
  rw [labelMapItems_ids]
  apply List.nodup_range'
  omega

theorem numClasses_of_serialized (names : List String)
    (hv : ∀ nm ∈ names, ∀ c ∈ nm.data, c ≠ '"') :
    get_num_classes_from_label_map
      (String.mk (labelMapChars (labelMapItems names))) =
      some (min names.length 90) := by
  unfold get_num_classes_from_label_map
  rw [load_labelmap_round (labelMapItems names)
    (fun it hm => hv it.name (mem_labelMapItems_name hm))]
  show some ((categoryIndexKeys (convert_label_map_to_categories 90
    (labelMapItems names))).length) = some (min names.length 90)
  refine congrArg some ?_
  rw [convert_eq_of_nodup 90 _ (nodup_labelMapItems_ids names)]
  have hcat : (((labelMapItems names).filter
      (fun it => decide (0 < it.id ∧ it.id ≤ 90))).map
        (fun it : LabelMapItem => (⟨it.id, it.name⟩ : Category))).map
          Category.id =
      ((labelMapItems names).filter
        (fun it => decide (0 < it.id ∧ it.id ≤ 90))).map
          LabelMapItem.id := by
    rw [List.map_map]
    rfl
  have hnd : ((((labelMapItems names).filter
      (fun it => decide (0 < it.id ∧ it.id ≤ 90))).map
        (fun it : LabelMapItem => (⟨it.id, it.name⟩ : Category))).map
          Category.id).Nodup := by
    rw [hcat]
    exact ((List.filter_sublist _).map LabelMapItem.id).nodup
      (nodup_labelMapItems_ids names)
  rw [categoryIndexKeys_of_nodup _ hnd, hcat, List.length_map,
    length_filter_labelMapItems]

theorem numClasses_le_90 (items : List LabelMapItem) :
    (categoryIndexKeys (convert_label_map_to_categories 90 items)).length ≤
      90 := by
  obtain ⟨h1, h2, h3⟩ := convert_invariant 90 items ([], []) rfl
    List.nodup_nil (by simp)
  rw [convert_label_map_to_categories,
    categoryIndexKeys_of_nodup _ (h1 ▸ h2), ← h1]
  set ids := (items.foldl (convertStep 90) ([], [])).1 with hids
  have hsub : ids.toFinset ⊆ Finset.Icc 1 90 := by
    intro i hi
    have hm := h3 i (List.mem_toFinset.mp hi)
    exact Finset.mem_Icc.mpr ⟨by omega, hm.2⟩
  have hcard := Finset.card_le_card hsub
  rw [List.toFinset_card_of_nodup h2] at hcard
  simpa [Nat.card_Icc] using hcard

/-! ## Lemmas about the binary64 model -/

theorem rhe_le (r : ℚ) : (rhe r : ℚ) ≤ r + 1 / 2 := by
  unfold rhe
  have hfl := Int.floor_le r
  by_cases h1 : r - ⌊r⌋ < 1 / 2
  · rw [if_pos h1]
    linarith
  · rw [if_neg h1]
    by_cases h2 : 1 / 2 < r - ⌊r⌋
    · rw [if_pos h2]
      push_cast
      linarith
    · rw [if_neg h2]
      by_cases h3 : Even ⌊r⌋
      · rw [if_pos h3]
        linarith
      · rw [if_neg h3]
        push_cast
        linarith

theorem rhe_nonneg {r : ℚ} (h : 0 ≤ r) : 0 ≤ rhe r := by
  have hfl : 0 ≤ ⌊r⌋ := Int.floor_nonneg.mpr h
  unfold rhe
  by_cases h1 : r - ⌊r⌋ < 1 / 2
  · rw [if_pos h1]; exact hfl
  · rw [if_neg h1]
    by_cases h2 : 1 / 2 < r - ⌊r⌋
    · rw [if_pos h2]; omega
    · rw [if_neg h2]
      by_cases h3 : Even ⌊r⌋
      · rw [if_pos h3]; exact hfl
      · rw [if_neg h3]; omega

theorem roundB64_nonneg (q : ℚ) : 0 ≤ roundB64 q := by
  unfold roundB64
  by_cases h : q ≤ 0
  · rw [if_pos h]
  · rw [if_neg h]
    push_neg at h
    have hx : (0:ℚ) ≤ q * 2 ^ (52 - Int.log 2 q) :=
      mul_nonneg h.le (le_of_lt (zpow_pos (by norm_num) _))
    exact mul_nonneg (by exact_mod_cast rhe_nonneg hx)
      (le_of_lt (zpow_pos (by norm_num) _))

theorem roundB64_le {q : ℚ} (h : 0 ≤ q) :
    roundB64 q ≤ q + q / 9007199254740992 := by
  rcases eq_or_lt_of_le h with heq | hq
  · rw [roundB64, if_pos (le_of_eq heq.symm), ← heq]
    norm_num
  · rw [roundB64, if_neg (not_le.mpr hq)]
    set e := Int.log 2 q with he
    have h2e : (2:ℚ) ^ e ≤ q :=
      Int.zpow_log_le_self (by norm_num : (1:ℕ) < 2) hq
    have hx : (rhe (q * 2 ^ (52 - e)) : ℚ) ≤ q * 2 ^ (52 - e) + 1 / 2 :=
      rhe_le _
    have hpow : (0:ℚ) < 2 ^ (e - 52) := zpow_pos (by norm_num) _
    have hmul := mul_le_mul_of_nonneg_right hx hpow.le
    have hcollapse : q * 2 ^ (52 - e) * 2 ^ (e - 52) = q := by
      rw [mul_assoc, ← zpow_add₀ (by norm_num : (2:ℚ) ≠ 0),
        show (52 - e) + (e - 52) = 0 by ring, zpow_zero, mul_one]
    have hhalf : (1 / 2 : ℚ) * 2 ^ (e - 52) = 2 ^ (e - 53) := by
      rw [show e - 53 = (-1) + (e - 52) by ring,
        zpow_add₀ (by norm_num : (2:ℚ) ≠ 0)]
      norm_num
    have hsmall : (2:ℚ) ^ (e - 53) ≤ q / 9007199254740992 := by
      rw [show e - 53 = e + (-53) by ring,
        zpow_add₀ (by norm_num : (2:ℚ) ≠ 0),
        show ((2:ℚ) ^ (-53:ℤ)) = 1 / 9007199254740992 by norm_num,
        div_eq_mul_one_div q 9007199254740992]
      exact mul_le_mul_of_nonneg_right h2e (by norm_num)
    calc (rhe (q * 2 ^ (52 - e)) : ℚ) * 2 ^ (e - 52)
        ≤ (q * 2 ^ (52 - e) + 1 / 2) * 2 ^ (e - 52) := hmul
      _ = q + (1 / 2) * 2 ^ (e - 52) := by rw [add_mul, hcollapse]
      _ = q + 2 ^ (e - 53) := by rw [hhalf]
      _ ≤ q + q / 9007199254740992 := by linarith

theorem int_log_eq {q : ℚ} {e : ℤ} (h1 : (2:ℚ) ^ e ≤ q)
    (h2 : q < 2 ^ (e + 1)) : Int.log 2 q = e := by
  have hq : 0 < q := lt_of_lt_of_le (zpow_pos (by norm_num) e) h1
  have hle : e ≤ Int.log 2 q :=
    (Int.zpow_le_iff_le_log (by norm_num : (1:ℕ) < 2) hq).mp h1
  have hlt : Int.log 2 q < e + 1 :=
    (Int.lt_zpow_iff_log_lt (by norm_num : (1:ℕ) < 2) hq).mp h2
  omega

theorem roundB64_eval {q : ℚ} {e : ℤ} (hq : 0 < q) (h1 : (2:ℚ) ^ e ≤ q)
    (h2 : q < 2 ^ (e + 1)) :
    roundB64 q = (rhe (q * 2 ^ (52 - e)) : ℚ) * 2 ^ (e - 52) := by
  rw [roundB64, if_neg (not_le.mpr hq), int_log_eq h1 h2]

theorem floor_eval {r : ℚ} {n : ℤ} (h1 : (n:ℚ) ≤ r) (h2 : r < n + 1) :
    ⌊r⌋ = n := by
  rw [Int.floor_eq_iff]
  exact ⟨h1, h2⟩

theorem rhe_eval_lo {r : ℚ} {n : ℤ} (h1 : (n:ℚ) ≤ r) (h2 : r < n + 1 / 2) :
    rhe r = n := by
  have hfl : ⌊r⌋ = n := floor_eval h1 (by linarith)
  rw [rhe, hfl, if_pos (by linarith)]

theorem rhe_eval_hi {r : ℚ} {n : ℤ} (h1 : (n:ℚ) + 1 / 2 < r)
    (h2 : r < n + 1) : rhe r = n + 1 := by
  have hfl : ⌊r⌋ = n := floor_eval (by linarith) h2
  rw [rhe, hfl, if_neg (by linarith), if_pos (by linarith)]

theorem rhe_eval_tie {r : ℚ} {n : ℤ} (h : r = (n:ℚ) + 1 / 2)
    (he : Even n) : rhe r = n := by
  have hfl : ⌊r⌋ = n := floor_eval (by linarith) (by rw [h]; linarith)
  rw [rhe, hfl, if_neg (by rw [h]; intro hcon; linarith),
    if_neg (by rw [h]; intro hcon; linarith), if_pos he]

theorem dTP_val :
    defaultTrainingPercentage = 7205759403792794 / 9007199254740992 := by
  unfold defaultTrainingPercentage
  have h1 : (2:ℚ) ^ (-1:ℤ) ≤ 4 / 5 := by norm_num
  have h2 : (4 / 5 : ℚ) < 2 ^ ((-1:ℤ) + 1) := by norm_num
  rw [roundB64_eval (by norm_num) h1 h2,
    show ((52:ℤ) - (-1)) = 53 by norm_num,
    show ((-1:ℤ) - 52) = -53 by norm_num]
  have ha : ((7205759403792793:ℤ):ℚ) + 1 / 2 < (4 / 5 : ℚ) * 2 ^ (53:ℤ) := by
    norm_num
  have hb : (4 / 5 : ℚ) * 2 ^ (53:ℤ) < ((7205759403792793:ℤ):ℚ) + 1 := by
    norm_num
  rw [rhe_eval_hi ha hb]
  norm_num

theorem oneMinusTP_val :
    roundB64 (1 - defaultTrainingPercentage) =
      900719925474099 / 4503599627370496 := by
  rw [dTP_val]
  have h1 : (2:ℚ) ^ (-3:ℤ) ≤ 1 - 7205759403792794 / 9007199254740992 := by
    norm_num
  have h2 : (1:ℚ) - 7205759403792794 / 9007199254740992 < 2 ^ ((-3:ℤ) + 1) := by
    norm_num
  rw [roundB64_eval (by norm_num) h1 h2,
    show ((52:ℤ) - (-3)) = 55 by norm_num,
    show ((-3:ℤ) - 52) = -55 by norm_num]
  have ha : ((7205759403792792:ℤ):ℚ) ≤
      ((1:ℚ) - 7205759403792794 / 9007199254740992) * 2 ^ (55:ℤ) := by norm_num
  have hb : ((1:ℚ) - 7205759403792794 / 9007199254740992) * 2 ^ (55:ℤ) <
      ((7205759403792792:ℤ):ℚ) + 1 / 2 := by norm_num
  rw [rhe_eval_lo ha hb]
  norm_num

theorem train_len_10 : train_len 10 defaultTrainingPercentage = 8 := by
  unfold train_len
  rw [dTP_val, show (((10:ℕ)):ℚ) = 10 by norm_num]
  have h1 : (2:ℚ) ^ (3:ℤ) ≤ 10 * (7205759403792794 / 9007199254740992) := by
    norm_num
  have h2 : (10:ℚ) * (7205759403792794 / 9007199254740992) < 2 ^ ((3:ℤ) + 1) := by
    norm_num
  rw [roundB64_eval (by norm_num) h1 h2,
    show ((52:ℤ) - 3) = 49 by norm_num, show ((3:ℤ) - 52) = -49 by norm_num]
  have ha : ((4503599627370496:ℤ):ℚ) ≤
      (10:ℚ) * (7205759403792794 / 9007199254740992) * 2 ^ (49:ℤ) := by norm_num
  have hb : (10:ℚ) * (7205759403792794 / 9007199254740992) * 2 ^ (49:ℤ) <
      ((4503599627370496:ℤ):ℚ) + 1 / 2 := by norm_num
  rw [rhe_eval_lo ha hb]
  have hfl : ((4503599627370496:ℤ):ℚ) * 2 ^ (-49:ℤ) = ((8:ℤ):ℚ) := by norm_num
  rw [hfl, Int.floor_intCast]

theorem val_len_10 : val_len 10 defaultTrainingPercentage = 1 := by
  unfold val_len
  rw [oneMinusTP_val, show (((10:ℕ)):ℚ) = 10 by norm_num]
  have h1 : (2:ℚ) ^ (0:ℤ) ≤ 10 * (900719925474099 / 4503599627370496) := by
    norm_num
  have h2 : (10:ℚ) * (900719925474099 / 4503599627370496) < 2 ^ ((0:ℤ) + 1) := by
    norm_num
  rw [roundB64_eval (by norm_num) h1 h2,
    show ((52:ℤ) - 0) = 52 by norm_num, show ((0:ℤ) - 52) = -52 by norm_num]
  have ha : ((9007199254740990:ℤ):ℚ) ≤
      (10:ℚ) * (900719925474099 / 4503599627370496) * 2 ^ (52:ℤ) := by norm_num
  have hb : (10:ℚ) * (900719925474099 / 4503599627370496) * 2 ^ (52:ℤ) <
      ((9007199254740990:ℤ):ℚ) + 1 / 2 := by norm_num
  rw [rhe_eval_lo ha hb]
  have ha' : ((1:ℤ):ℚ) ≤ ((9007199254740990:ℤ):ℚ) * 2 ^ (-52:ℤ) := by norm_num
  have hb' : ((9007199254740990:ℤ):ℚ) * 2 ^ (-52:ℤ) < ((1:ℤ):ℚ) + 1 := by
    norm_num
  rw [floor_eval ha' hb']

theorem train_len_11 : train_len 11 defaultTrainingPercentage = 8 := by
  unfold train_len
  rw [dTP_val, show (((11:ℕ)):ℚ) = 11 by norm_num]
  have h1 : (2:ℚ) ^ (3:ℤ) ≤ 11 * (7205759403792794 / 9007199254740992) := by
    norm_num
  have h2 : (11:ℚ) * (7205759403792794 / 9007199254740992) < 2 ^ ((3:ℤ) + 1) := by
    norm_num
  rw [roundB64_eval (by norm_num) h1 h2,
    show ((52:ℤ) - 3) = 49 by norm_num, show ((3:ℤ) - 52) = -49 by norm_num]
  have ha : ((4953959590107545:ℤ):ℚ) + 1 / 2 <
      (11:ℚ) * (7205759403792794 / 9007199254740992) * 2 ^ (49:ℤ) := by norm_num
  have hb : (11:ℚ) * (7205759403792794 / 9007199254740992) * 2 ^ (49:ℤ) <
      ((4953959590107545:ℤ):ℚ) + 1 := by norm_num
  rw [rhe_eval_hi ha hb]
  have ha' : ((8:ℤ):ℚ) ≤ ((4953959590107545 + 1:ℤ):ℚ) * 2 ^ (-49:ℤ) := by
    norm_num
  have hb' : ((4953959590107545 + 1:ℤ):ℚ) * 2 ^ (-49:ℤ) < ((8:ℤ):ℚ) + 1 := by
    norm_num
  rw [floor_eval ha' hb']

theorem val_len_11 : val_len 11 defaultTrainingPercentage = 2 := by
  unfold val_len
  rw [oneMinusTP_val, show (((11:ℕ)):ℚ) = 11 by norm_num]
  have h1 : (2:ℚ) ^ (1:ℤ) ≤ 11 * (900719925474099 / 4503599627370496) := by
    norm_num
  have h2 : (11:ℚ) * (900719925474099 / 4503599627370496) < 2 ^ ((1:ℤ) + 1) := by
    norm_num
  rw [roundB64_eval (by norm_num) h1 h2,
    show ((52:ℤ) - 1) = 51 by norm_num, show ((1:ℤ) - 52) = -51 by norm_num]
  have ht : (11:ℚ) * (900719925474099 / 4503599627370496) * 2 ^ (51:ℤ) =
      ((4953959590107544:ℤ):ℚ) + 1 / 2 := by norm_num
  have he : Even (4953959590107544:ℤ) := ⟨2476979795053772, by norm_num⟩
  rw [rhe_eval_tie ht he]
  have ha' : ((2:ℤ):ℚ) ≤ ((4953959590107544:ℤ):ℚ) * 2 ^ (-51:ℤ) := by norm_num
  have hb' : ((4953959590107544:ℤ):ℚ) * 2 ^ (-51:ℤ) < ((2:ℤ):ℚ) + 1 := by
    norm_num
  rw [floor_eval ha' hb']

/-! ## Claim theorems: class names, label map, paths, driver -/

/-- C2: for every input sequence of samples, `_create_list_of_class_names`
skips samples whose label field is null, and the class-name list contains
exactly the labels encountered in the scan (`scanLabels`), each exactly
once (no duplicates, even for labels repeated non-adjacently, dedup being
by exact string match), ordered by first occurrence in the scan. -/
theorem claim_C2_class_name_list (view : List Sample) :
    (_create_list_of_class_names view).Nodup ∧
    (∀ lab, lab ∈ _create_list_of_class_names view ↔ lab ∈ scanLabels view) ∧
    List.Pairwise
      (fun a b => firstIdx (scanLabels view) a < firstIdx (scanLabels view) b)
      (_create_list_of_class_names view) := by
  rw [clc_eq_dedupFirst]
  unfold dedupFirst
  refine ⟨nodup_foldl_addClassName _ [] List.nodup_nil, fun lab => ?_, ?_⟩
  · rw [mem_foldl_addClassName]
    simp
  · simpa using
      pairwise_foldl_addClassName (scanLabels view) [] [] (by simp)
        List.Pairwise.nil

/-- C3: `create_detection_mapping` assigns the ids 1..len(ClassNameList)
in list order (1-indexed), and on the spec's concrete scenario (scan-order
labels cat, dog, cat) the class-name list is `["cat", "dog"]`, the map is
`{1: "cat", 2: "dog"}`, and the serialized text has one id/name entry per
class. -/
theorem claim_C3_detection_mapping (names : List String) :
    ((labelMapItems names).map LabelMapItem.id =
        List.range' 1 names.length ∧
      (labelMapItems names).map LabelMapItem.name = names) ∧
    _create_list_of_class_names (matchTags "training" exampleDataset) =
      ["cat", "dog"] ∧
    labelMapItems ["cat", "dog"] = [⟨1, "cat"⟩, ⟨2, "dog"⟩] ∧
    create_detection_mapping (fun _ l => l) 0 exampleDataset =
      "item \x7b\n  name: \"cat\"\n  id: 1\n\x7d\nitem \x7b\n  name: \"dog\"\n  id: 2\n\x7d\n" := by
  refine ⟨⟨?_, ?_⟩, by decide, by decide, by decide⟩
  · rw [labelMapItems, List.map_map]
    have h : (LabelMapItem.id ∘ fun p : ℕ × String => ⟨p.1, p.2⟩) =
        Prod.fst := rfl
    rw [h, List.enumFrom_map_fst]
  · rw [labelMapItems, List.map_map]
    have h : (LabelMapItem.name ∘ fun p : ℕ × String => ⟨p.1, p.2⟩) =
        Prod.snd := rfl
    rw [h, List.enumFrom_map_snd]

/-- C8: when `chosen_model` is not a key of `base_models`, `set_filenames`
fails with the (uncaught) `KeyError` and returns no filepath dict. -/
theorem claim_C8_missing_model_key (bm : List (String × BaseModelMetadata))
    (tn cm : String) (h : bm.lookup cm = none) :
    set_filenames bm tn cm = Except.error PyError.keyError ∧
    ∀ fp, set_filenames bm tn cm ≠ Except.ok fp := by
  unfold set_filenames
  rw [h]
  exact ⟨rfl, fun fp hfp => by cases hfp⟩

theorem claim_C8_witness :
    cexBaseModels.lookup "nope" = none ∧
    (set_filenames cexBaseModels "run1" "nope" = Except.error PyError.keyError ∧
      ∀ fp, set_filenames cexBaseModels "run1" "nope" ≠ Except.ok fp) :=
  ⟨by decide, claim_C8_missing_model_key cexBaseModels "run1" "nope" (by decide)⟩

/-- C7: when the guard directory `/tf/ml-model/dataset-export/<name>`
already exists, `train_detection_model` logs an error and exits with
status 1, and its effect trace holds no configuration load, file write or
download; any invocation (in particular a repeated one) with such a name
fails this way. -/
theorem claim_C7_duplicate_name_guard (isdir : String → Bool)
    (bm : List (String × BaseModelMetadata)) (tn cm : String)
    (h : isdir (uniqueNameGuardDir tn) = true) :
    train_detection_model isdir bm tn cm =
      ([Effect.logError "Must use unique model name."], Outcome.exited 1) ∧
    ∀ e ∈ (train_detection_model isdir bm tn cm).1,
      (∀ f, e ≠ Effect.loadConfig f) ∧ (∀ p, e ≠ Effect.writeFile p) ∧
        (∀ u, e ≠ Effect.download u) := by
  have heq : train_detection_model isdir bm tn cm =
      ([Effect.logError "Must use unique model name."], Outcome.exited 1) := by
    unfold train_detection_model
    rw [h]
    simp
  refine ⟨heq, ?_⟩
  rw [heq]
  rintro e he
  have he' : e = Effect.logError "Must use unique model name." :=
    List.mem_singleton.mp he
  subst he'
  refine ⟨?_, ?_, ?_⟩ <;> intro x hx <;> cases hx

theorem claim_C7_witness :
    ((fun _ : String => true) (uniqueNameGuardDir "run1") = true) ∧
    (train_detection_model (fun _ => true) cexBaseModels "run1" "m" =
        ([Effect.logError "Must use unique model name."], Outcome.exited 1) ∧
      ∀ e ∈ (train_detection_model (fun _ => true) cexBaseModels "run1" "m").1,
        (∀ f, e ≠ Effect.loadConfig f) ∧ (∀ p, e ≠ Effect.writeFile p) ∧
          (∀ u, e ≠ Effect.download u)) :=
  ⟨rfl, claim_C7_duplicate_name_guard (fun _ => true) cexBaseModels "run1" "m" rfl⟩

/-- C9: the split is deterministic: the shuffle is called with the fixed
seed 51, so the exported validation/training partitions do not depend on
the ambient randomness, and two invocations over an unmodified dataset
with the same arguments are identical. -/
theorem claim_C9_split_determinism (rng : ℕ → List Sample → List Sample)
    (ds : List Sample) (f : ℚ) (amb₁ amb₂ : ℕ) :
    export_voxel51_dataset_to_tfrecords rng amb₁ ds f =
      export_voxel51_dataset_to_tfrecords rng amb₂ ds f := rfl

/-- C4 fails as stated: on `cexBaseModels` with training name `"run1"`,
`set_filenames` succeeds but its path values are neither pairwise
distinct (`pretrained_checkpoint` equals `pipeline_file`) nor do they all
contain the training name (`base_pipeline_file` is `"bp"`). -/
theorem claim_C4_counterexample :
    ∃ fp, set_filenames cexBaseModels "run1" "m" = Except.ok fp ∧
      ¬ List.Pairwise (fun a b => a ≠ b) fp.allPaths ∧
      ¬ (∀ p ∈ fp.allPaths, strContains p "run1") := by
  refine ⟨_, rfl, ?_, ?_⟩
  · decide
  · intro hall
    exact not_strContains_of_short (by decide)
      (hall "bp" (by decide))

/-- C4, amended: for every valid `(training_name, chosen_model)` the seven
run-scoped paths of `set_filenames` (record files, export dirs, model
export dir, label-map file, model dir) are pairwise distinct and each
contains `training_name` as a substring; the four metadata-derived values
(`pretrained_checkpoint`, `pipeline_file`, `fine_tune_checkpoint`,
`base_pipeline_file`) carry no such guarantee. -/
theorem claim_C4_run_scoped_paths (bm : List (String × BaseModelMetadata))
    (tn cm : String) (md : BaseModelMetadata)
    (h : bm.lookup cm = some md) :
    ∃ fp, set_filenames bm tn cm = Except.ok fp ∧
      List.Pairwise (fun a b => a ≠ b) fp.runScopedPaths ∧
      ∀ p ∈ fp.runScopedPaths, strContains p tn := by
  unfold set_filenames
  rw [h]
  refine ⟨_, rfl, ?_, ?_⟩
  · simp only [Filepaths.runScopedPaths]
    refine List.Pairwise.cons ?_ (List.Pairwise.cons ?_ (List.Pairwise.cons ?_
      (List.Pairwise.cons ?_ (List.Pairwise.cons ?_ (List.Pairwise.cons ?_
        (List.pairwise_singleton _ _)))))) <;>
      (intro b hb; fin_cases hb) <;> exact strNe_of_parts (by decide)
  · simp only [Filepaths.runScopedPaths, List.mem_cons, List.not_mem_nil,
      or_false]
    rintro p (rfl | rfl | rfl | rfl | rfl | rfl | rfl) <;>
      exact strContains_mid _ _ _

/-- C5 fails as stated: with `training_percentage = 0.8` and `N = 10`
the code computes `val_len = 1`, not 2, and one sample is excluded, not
none (binary64: `10 * (1 - 0.8)` is slightly below 2 and floors to 1). -/
theorem claim_C5_counterexample :
    val_len 10 defaultTrainingPercentage ≠ 2 ∧
    train_len 10 defaultTrainingPercentage +
      val_len 10 defaultTrainingPercentage ≠ 10 := by
  rw [val_len_10, train_len_10]
  exact ⟨by decide, by decide⟩

/-- C5, amended: with `training_percentage = 0.8` (its binary64 value),
`N = 10` yields `train_len = 8`, `val_len = 1` with exactly one sample
excluded, and `N = 11` yields `train_len = 8`, `val_len = 2` with exactly
one sample excluded. -/
theorem claim_C5_split_sizes :
    train_len 10 defaultTrainingPercentage = 8 ∧
    val_len 10 defaultTrainingPercentage = 1 ∧
    (10:ℤ) - (train_len 10 defaultTrainingPercentage +
      val_len 10 defaultTrainingPercentage) = 1 ∧
    train_len 11 defaultTrainingPercentage = 8 ∧
    val_len 11 defaultTrainingPercentage = 2 ∧
    (11:ℤ) - (train_len 11 defaultTrainingPercentage +
      val_len 11 defaultTrainingPercentage) = 1 := by
  refine ⟨train_len_10, val_len_10, ?_, train_len_11, val_len_11, ?_⟩
  · rw [train_len_10, val_len_10]
    decide
  · rw [train_len_11, val_len_11]
    decide

/-- C1 fails as stated: at `N = 10` and the binary64 value of `f = 0.8`,
the computed `val_len` is 1, while `floor(N * (1 - f))` under exact
arithmetic is 2. -/
theorem claim_C1_counterexample :
    val_len 10 defaultTrainingPercentage ≠ ⌊(10:ℚ) * (1 - 4 / 5)⌋ := by
  rw [val_len_10, show ((10:ℚ) * (1 - 4 / 5)) = ((2:ℤ):ℚ) by norm_num,
    Int.floor_intCast]
  decide

/-- C1, amended: the partition sizes are the floors of the
binary64-evaluated products (`val_len = floor(fl(N * fl(1 - f)))`,
`train_len = floor(fl(N * f))`, which can differ from the exact-arithmetic
floors); the validation view is the first `val_len` samples after the
shuffle and the training view the next `train_len`; for `0 ≤ f ≤ 1` and
`N ≤ 2^50` the two partitions are disjoint, `val_len + train_len ≤ N`,
and every flooring-remainder sample is excluded from both. -/
theorem claim_C1_split_structure (rng : ℕ → List Sample → List Sample)
    (amb : ℕ) (ds : List Sample) (f : ℚ)
    (hperm : ∀ s l, List.Perm (rng s l) l) (hnd : ds.Nodup)
    (hf0 : 0 ≤ f) (hf1 : f ≤ 1)
    (hN : (matchTags "training" ds).length ≤ 2 ^ 50) :
    export_voxel51_dataset_to_tfrecords rng amb ds f =
      ((shuffledTrainingView rng amb ds).take (valLenOf rng amb ds f),
       ((shuffledTrainingView rng amb ds).drop (valLenOf rng amb ds f)).take
         (trainLenOf rng amb ds f)) ∧
    valLenOf rng amb ds f + trainLenOf rng amb ds f ≤
      (shuffledTrainingView rng amb ds).length ∧
    List.Disjoint (export_voxel51_dataset_to_tfrecords rng amb ds f).1
      (export_voxel51_dataset_to_tfrecords rng amb ds f).2 ∧
    ∀ x ∈ (shuffledTrainingView rng amb ds).drop
        (valLenOf rng amb ds f + trainLenOf rng amb ds f),
      x ∉ (export_voxel51_dataset_to_tfrecords rng amb ds f).1 ∧
      x ∉ (export_voxel51_dataset_to_tfrecords rng amb ds f).2 := by
  have hpair : export_voxel51_dataset_to_tfrecords rng amb ds f =
      ((shuffledTrainingView rng amb ds).take (valLenOf rng amb ds f),
       ((shuffledTrainingView rng amb ds).drop
          (valLenOf rng amb ds f)).take (trainLenOf rng amb ds f)) := rfl
  set view := shuffledTrainingView rng amb ds with hview
  set n := view.length with hn
  set v := valLenOf rng amb ds f with hv
  set t := trainLenOf rng amb ds f with ht
  have hlen : view.length = (matchTags "training" ds).length :=
    (hperm 51 (matchTags "training" ds)).length_eq
  have hndv : view.Nodup :=
    (hperm 51 (matchTags "training" ds)).nodup_iff.mpr
      (List.Nodup.filter _ hnd)
  -- the two computed sizes together stay below the view size
  have hsum : v + t ≤ n := by
    have hNQ : ((n:ℕ):ℚ) ≤ 2 ^ 50 := by
      have hn' : n ≤ 2 ^ 50 := by
        rw [hn, hlen]
        exact hN
      exact_mod_cast hn'
    have hN0 : (0:ℚ) ≤ (n:ℚ) := Nat.cast_nonneg n
    have h1f : (0:ℚ) ≤ 1 - f := by linarith
    have hg0 : 0 ≤ roundB64 (1 - f) := roundB64_nonneg _
    have hg : roundB64 (1 - f) ≤ (1 - f) + (1 - f) / 9007199254740992 :=
      roundB64_le h1f
    have hw0 : 0 ≤ (n:ℚ) * f := mul_nonneg hN0 hf0
    have hbB : roundB64 ((n:ℚ) * f) ≤
        (n:ℚ) * f + ((n:ℚ) * f) / 9007199254740992 := roundB64_le hw0
    have hNg0 : 0 ≤ (n:ℚ) * roundB64 (1 - f) := mul_nonneg hN0 hg0
    have haB : roundB64 ((n:ℚ) * roundB64 (1 - f)) ≤
        (n:ℚ) * roundB64 (1 - f) +
          ((n:ℚ) * roundB64 (1 - f)) / 9007199254740992 := roundB64_le hNg0
    have hNgle : (n:ℚ) * roundB64 (1 - f) ≤
        (n:ℚ) * (1 - f) + ((n:ℚ) * (1 - f)) / 9007199254740992 := by
      have h := mul_le_mul_of_nonneg_left hg hN0
      have he : (n:ℚ) * ((1 - f) + (1 - f) / 9007199254740992) =
          (n:ℚ) * (1 - f) + ((n:ℚ) * (1 - f)) / 9007199254740992 := by ring
      linarith
    have hu2 : (n:ℚ) * (1 - f) ≤ 2 ^ 50 :=
      (mul_le_of_le_one_right hN0 (by linarith)).trans hNQ
    have hw2 : (n:ℚ) * f ≤ 2 ^ 50 :=
      (mul_le_of_le_one_right hN0 hf1).trans hNQ
    have hCpos : (0:ℚ) < 9007199254740992 := by norm_num
    have huC : ((n:ℚ) * (1 - f)) / 9007199254740992 ≤ 1 / 8 := by
      have h := (div_le_div_iff_of_pos_right hCpos).mpr hu2
      have he : ((2:ℚ) ^ 50) / 9007199254740992 = 1 / 8 := by norm_num
      linarith
    have hwC : ((n:ℚ) * f) / 9007199254740992 ≤ 1 / 8 := by
      have h := (div_le_div_iff_of_pos_right hCpos).mpr hw2
      have he : ((2:ℚ) ^ 50) / 9007199254740992 = 1 / 8 := by norm_num
      linarith
    have hNg2 : (n:ℚ) * roundB64 (1 - f) ≤ 2 ^ 50 + 1 / 8 := by linarith
    have hNgC : ((n:ℚ) * roundB64 (1 - f)) / 9007199254740992 ≤ 1 / 4 := by
      have h := (div_le_div_iff_of_pos_right hCpos).mpr hNg2
      have he : ((2:ℚ) ^ 50 + 1 / 8) / 9007199254740992 ≤ 1 / 4 := by norm_num
      linarith
    have hab : roundB64 ((n:ℚ) * roundB64 (1 - f)) +
        roundB64 ((n:ℚ) * f) < (n:ℚ) + 1 := by
      have he : (n:ℚ) * (1 - f) + (n:ℚ) * f = (n:ℚ) := by ring
      linarith
    have hfa : (⌊roundB64 ((n:ℚ) * roundB64 (1 - f))⌋ : ℚ) ≤
        roundB64 ((n:ℚ) * roundB64 (1 - f)) := Int.floor_le _
    have hfb : (⌊roundB64 ((n:ℚ) * f)⌋ : ℚ) ≤ roundB64 ((n:ℚ) * f) :=
      Int.floor_le _
    have hZsum : ⌊roundB64 ((n:ℚ) * roundB64 (1 - f))⌋ +
        ⌊roundB64 ((n:ℚ) * f)⌋ ≤ (n:ℤ) := by
      have h : (↑(⌊roundB64 ((n:ℚ) * roundB64 (1 - f))⌋ +
          ⌊roundB64 ((n:ℚ) * f)⌋) : ℚ) < ((n:ℤ) : ℚ) + 1 := by
        push_cast
        linarith
      have h' : ⌊roundB64 ((n:ℚ) * roundB64 (1 - f))⌋ +
          ⌊roundB64 ((n:ℚ) * f)⌋ < (n:ℤ) + 1 := by exact_mod_cast h
      omega
    have hZa : ⌊roundB64 ((n:ℚ) * roundB64 (1 - f))⌋ ≤ (n:ℤ) := by
      have hb0 : (0:ℚ) ≤ roundB64 ((n:ℚ) * f) := roundB64_nonneg _
      have h : (↑(⌊roundB64 ((n:ℚ) * roundB64 (1 - f))⌋) : ℚ) <
          ((n:ℤ) : ℚ) + 1 := by push_cast; linarith
      have h' : ⌊roundB64 ((n:ℚ) * roundB64 (1 - f))⌋ < (n:ℤ) + 1 := by
        exact_mod_cast h
      omega
    have hZb : ⌊roundB64 ((n:ℚ) * f)⌋ ≤ (n:ℤ) := by
      have ha0 : (0:ℚ) ≤ roundB64 ((n:ℚ) * roundB64 (1 - f)) :=
        roundB64_nonneg _
      have h : (↑(⌊roundB64 ((n:ℚ) * f)⌋) : ℚ) < ((n:ℤ) : ℚ) + 1 := by
        push_cast; linarith
      have h' : ⌊roundB64 ((n:ℚ) * f)⌋ < (n:ℤ) + 1 := by exact_mod_cast h
      omega
    have hvval : v = (⌊roundB64 ((n:ℚ) * roundB64 (1 - f))⌋).toNat := rfl
    have htval : t = (⌊roundB64 ((n:ℚ) * f)⌋).toNat := rfl
    rw [hvval, htval]
    omega
  have h1 : List.Disjoint (view.take v) (view.drop v) := by
    have h := hndv
    rw [← List.take_append_drop v view] at h
    exact (List.nodup_append.mp h).2.2
  have hdisj : List.Disjoint (view.take v) ((view.drop v).take t) :=
    List.disjoint_of_subset_right (List.take_subset _ _) h1
  refine ⟨hpair, hsum, ?_, ?_⟩
  · rw [hpair]
    exact hdisj
  · intro x hx
    rw [hpair]
    have hxd : x ∈ (view.drop v).drop t := by
      rw [List.drop_drop]
      exact hx
    have hxdv : x ∈ view.drop v := List.drop_subset t (view.drop v) hxd
    have hndd : (view.drop v).Nodup := (List.drop_sublist _ _).nodup hndv
    have hdisj2 : List.Disjoint ((view.drop v).take t) ((view.drop v).drop t) := by
      have h := hndd
      rw [← List.take_append_drop t (view.drop v)] at h
      exact (List.nodup_append.mp h).2.2
    constructor
    · intro hmem
      exact (h1 hmem) hxdv
    · intro hmem
      exact (hdisj2 hmem) hxd

theorem claim_C1_witness :
    (∀ s l, List.Perm ((fun (_ : ℕ) (l : List Sample) => l) s l) l) ∧
    exampleDataset.Nodup ∧ (0:ℚ) ≤ 4 / 5 ∧ (4 / 5 : ℚ) ≤ 1 ∧
    (matchTags "training" exampleDataset).length ≤ 2 ^ 50 ∧
    (export_voxel51_dataset_to_tfrecords (fun _ l => l) 0 exampleDataset
        (4 / 5) =
      ((shuffledTrainingView (fun _ l => l) 0 exampleDataset).take
         (valLenOf (fun _ l => l) 0 exampleDataset (4 / 5)),
       ((shuffledTrainingView (fun _ l => l) 0 exampleDataset).drop
          (valLenOf (fun _ l => l) 0 exampleDataset (4 / 5))).take
         (trainLenOf (fun _ l => l) 0 exampleDataset (4 / 5))) ∧
    valLenOf (fun _ l => l) 0 exampleDataset (4 / 5) +
        trainLenOf (fun _ l => l) 0 exampleDataset (4 / 5) ≤
      (shuffledTrainingView (fun _ l => l) 0 exampleDataset).length ∧
    List.Disjoint
      (export_voxel51_dataset_to_tfrecords (fun _ l => l) 0 exampleDataset
          (4 / 5)).1
      (export_voxel51_dataset_to_tfrecords (fun _ l => l) 0 exampleDataset
          (4 / 5)).2 ∧
    ∀ x ∈ (shuffledTrainingView (fun _ l => l) 0 exampleDataset).drop
        (valLenOf (fun _ l => l) 0 exampleDataset (4 / 5) +
          trainLenOf (fun _ l => l) 0 exampleDataset (4 / 5)),
      x ∉ (export_voxel51_dataset_to_tfrecords (fun _ l => l) 0
          exampleDataset (4 / 5)).1 ∧
      x ∉ (export_voxel51_dataset_to_tfrecords (fun _ l => l) 0
          exampleDataset (4 / 5)).2) :=
  ⟨fun _ l => List.Perm.refl l, by decide, by norm_num, by norm_num,
    by decide,
    claim_C1_split_structure (fun _ l => l) 0 exampleDataset (4 / 5)
      (fun _ l => List.Perm.refl l) (by decide) (by norm_num) (by norm_num)
      (by decide)⟩

theorem claim_C4_witness :
    cexBaseModels.lookup "m" =
      some (BaseModelMetadata.mk "bp" "mn" "/tf/models/research/deploy/bp") ∧
    (∃ fp, set_filenames cexBaseModels "run1" "m" = Except.ok fp ∧
      List.Pairwise (fun a b => a ≠ b) fp.runScopedPaths ∧
      ∀ p ∈ fp.runScopedPaths, strContains p "run1") :=
  ⟨by decide,
    claim_C4_run_scoped_paths cexBaseModels "run1" "m"
      (BaseModelMetadata.mk "bp" "mn" "/tf/models/research/deploy/bp")
      (by decide)⟩

set_option maxRecDepth 100000 in
/-- C6 fails as stated: a dataset with 91 distinct detection labels yields
a 91-entry class list, but re-parsing the written label map through
`get_num_classes_from_label_map` (which converts with
`max_num_classes=90`) returns 90, not 91. -/
theorem claim_C6_counterexample :
    (_create_list_of_class_names (fiftyoneShuffle (fun _ l => l) (some 2021)
      0 (matchTags "training" cex91Dataset))).length = 91 ∧
    get_num_classes_from_label_map (save_mapping_to_file
      (create_detection_mapping (fun _ l => l) 0 cex91Dataset)) =
      some 90 := by
  refine ⟨by decide, ?_⟩
  have h := numClasses_of_serialized
    (_create_list_of_class_names (fiftyoneShuffle (fun _ l => l) (some 2021)
      0 (matchTags "training" cex91Dataset))) (by decide)
  rw [show (_create_list_of_class_names (fiftyoneShuffle (fun _ l => l)
      (some 2021) 0 (matchTags "training" cex91Dataset))).length = 91
    by decide] at h
  rw [show min 91 90 = 90 by norm_num] at h
  exact h

/-- C6, amended: for every label map produced by
`create_detection_mapping` and written verbatim by `save_mapping_to_file`,
provided the class-name list has at most 90 entries (the label-map
reader's `max_num_classes=90` cap) — and, in this model of the text
format, label names containing no `"` character — re-parsing via the
label-map reader recovers exactly the serialized 1-based ID-to-name
items, and `get_num_classes_from_label_map` recovers the class count. -/
theorem claim_C6_mapping_roundtrip (rng : ℕ → List Sample → List Sample)
    (amb : ℕ) (ds : List Sample)
    (hv : ∀ nm ∈ _create_list_of_class_names
        (fiftyoneShuffle rng (some 2021) amb (matchTags "training" ds)),
      ∀ c ∈ nm.data, c ≠ '"')
    (hlen : (_create_list_of_class_names
        (fiftyoneShuffle rng (some 2021) amb
          (matchTags "training" ds))).length ≤ 90) :
    load_labelmap (save_mapping_to_file
        (create_detection_mapping rng amb ds)) =
      some (labelMapItems (_create_list_of_class_names
        (fiftyoneShuffle rng (some 2021) amb (matchTags "training" ds)))) ∧
    get_num_classes_from_label_map (save_mapping_to_file
        (create_detection_mapping rng amb ds)) =
      some (_create_list_of_class_names
        (fiftyoneShuffle rng (some 2021) amb
          (matchTags "training" ds))).length := by
  constructor
  · exact load_labelmap_round _
      (fun it hm => hv it.name (mem_labelMapItems_name hm))
  · have h := numClasses_of_serialized
      (_create_list_of_class_names (fiftyoneShuffle rng (some 2021) amb
        (matchTags "training" ds))) hv
    rw [Nat.min_eq_left hlen] at h
    exact h

theorem claim_C6_witness :
    (∀ nm ∈ _create_list_of_class_names
        (fiftyoneShuffle (fun (_ : ℕ) (l : List Sample) => l) (some 2021) 0
          (matchTags "training" exampleDataset)),
      ∀ c ∈ nm.data, c ≠ '"') ∧
    (_create_list_of_class_names
        (fiftyoneShuffle (fun (_ : ℕ) (l : List Sample) => l) (some 2021) 0
          (matchTags "training" exampleDataset))).length ≤ 90 ∧
    (load_labelmap (save_mapping_to_file
        (create_detection_mapping (fun _ l => l) 0 exampleDataset)) =
      some (labelMapItems (_create_list_of_class_names
        (fiftyoneShuffle (fun _ l => l) (some 2021) 0
          (matchTags "training" exampleDataset)))) ∧
    get_num_classes_from_label_map (save_mapping_to_file
        (create_detection_mapping (fun _ l => l) 0 exampleDataset)) =
      some (_create_list_of_class_names
        (fiftyoneShuffle (fun _ l => l) (some 2021) 0
          (matchTags "training" exampleDataset))).length) :=
  ⟨by decide, by decide,
    claim_C6_mapping_roundtrip (fun _ l => l) 0 exampleDataset (by decide)
      (by decide)⟩

/-- C10: `get_num_classes_from_label_map` converts with
`max_num_classes=90`, so the class count it returns never exceeds 90 for
any label-map text; and for the serialized map of any class-name list
(of names needing no escaping) it returns exactly
`min (number of classes) 90`, so the serialize-then-count round trip
preserves the count exactly when the list has at most 90 entries. -/
theorem claim_C10_max_classes_cap :
    (∀ s n, get_num_classes_from_label_map s = some n → n ≤ 90) ∧
    (∀ names : List String, (∀ nm ∈ names, ∀ c ∈ nm.data, c ≠ '"') →
      get_num_classes_from_label_map
        (String.mk (labelMapChars (labelMapItems names))) =
        some (min names.length 90)) := by
  constructor
  · intro s n h
    unfold get_num_classes_from_label_map at h
    rcases hload : load_labelmap s with _ | items
    · rw [hload] at h
      cases h
    · rw [hload] at h
      have : n = (categoryIndexKeys
          (convert_label_map_to_categories 90 items)).length := by
        cases h
        rfl
      rw [this]
      exact numClasses_le_90 items
  · intro names hv
    exact numClasses_of_serialized names hv

theorem claim_C10_witness :
    (∀ nm ∈ (["cat"] : List String), ∀ c ∈ nm.data, c ≠ '"') ∧
    get_num_classes_from_label_map
        (String.mk (labelMapChars (labelMapItems ["cat"]))) =
      some (min (["cat"] : List String).length 90) ∧
    (∀ s n, get_num_classes_from_label_map s = some n → n ≤ 90) :=
  ⟨by decide, claim_C10_max_classes_cap.2 ["cat"] (by decide),
    claim_C10_max_classes_cap.1⟩

end SkyScan
